import Mathlib

/-!
# Verification of the watson-gui core (src/watson_gui.py)

Shallow embedding of the UI state-synchronization engine of the watson GUI:
the self-expanding tag list (`ComboboxList`), the status-output parser
(`get_current_start_time`), the timer label (`TimerLabelUpdater._update_label`)
and the start/stop session controller (`on_start_commanded` /
`on_stop_commanded`).  Pure Python functions become Lean functions; the
stateful widgets become explicit state records plus step functions over
events; external-process results become explicit inputs; exceptions become
explicit result constructors.

Definitions are translated from the Python source.  Definitions whose doc
comment says they follow the spec's words are the spec side of a refinement
comparison, not a translation of the code.
-/

/-! ## DynamicValueList (`ComboboxList`, src/watson_gui.py lines 88-124)

A `ComboboxList` holds a list of comboboxes and a parallel list of their
backing `StringVar` value holders; both lists are created, extended and
shortened together at the same indices, so the model keeps a single
`List String` of the current slot values.  The constructor calls
`_add_item()` once, so the fresh state is `[""]`.
-/

/-- In Python, `combobox.get()` returns a `str`, so the comparison
`combobox.get() != None` in `ComboboxList.get_values` (line 103) is true for
every slot value, including the empty string. -/
def pyStrNeNone (_v : String) : Bool := true

/-- `ComboboxList.get_values` (lines 102-103):
`[combobox.get() for combobox in self.comboboxes if combobox.get() != None]`. -/
def get_values (slots : List String) : List String :=
  slots.filter pyStrNeNone

/-- Follows the spec's words (§4.1 `getValues()`): "returns the current value
of every slot whose value is non-empty, in slot order". -/
def specGetValues (slots : List String) : List String :=
  slots.filter (fun v => !(v == ""))

/-- The `on_combobox_selected` trace callback (lines 110-119), as a function
of the slot-value list.  The changed slot `i` already holds its new value `v`
when the callback runs (the `StringVar` was written first), so the state seen
by the callback is `slots.set i v`.  Then:
`if combobox.get()=="" and len(self.comboboxes) > 1:` delete the combobox and
its value holder at `index = self.comboboxes.index(combobox)`;
`else: if self.comboboxes[len(self.comboboxes)-1] == combobox: self._add_item()`
(append one fresh empty slot; configuring the textvariable of the fresh
combobox does not write the variable, so no recursive event fires). -/
def on_combobox_selected (slots : List String) (i : Nat) (v : String) : List String :=
  let slots' := slots.set i v
  if v = "" ∧ 1 < slots'.length then slots'.eraseIdx i
  else if i = slots'.length - 1 then slots' ++ [""]
  else slots'

/-- One value-change event of slot `i` to the new value `v`.  The `trace('w')`
callback fires when the slot's variable is written; a value-change event is a
write whose value differs from the slot's current value, and only existing
slots can be edited, so events with an out-of-range index or an unchanged
value do not occur and leave the state unchanged. -/
def tagEditStep (slots : List String) (i : Nat) (v : String) : List String :=
  if i < slots.length ∧ slots.getD i "" ≠ v then on_combobox_selected slots i v else slots

/-- The states a `ComboboxList` can be in: a front of non-empty values
followed by one trailing empty slot. -/
def InvShape (slots : List String) : Prop :=
  ∃ front, slots = front ++ [""] ∧ front.all (fun v => !(v == "")) = true

/-! ## Status parsing (`get_current_start_time`, src/watson_gui.py lines 47-55)

`execute_command` returns the raw `bytes` of stdout; line 48 converts them
with `str(...)`, which produces the Python `repr` of the bytes object
(`b'...'` with escapes), not a decode.  The model therefore takes the raw
output as a list of byte-valued characters and applies the repr first.
Line 49 tests the marker `"No project started" in result`; line 52 runs
`re.findall(r'\(.*?\)', result)`; line 53-54 raise the protocol exception
when the number of matches differs from one; line 55 parses the single match
with `datetime.strptime(_, "(%Y.%m.%d %H:%M:%S%z)").replace(tzinfo=None)`,
which keeps the parsed wall-clock fields and discards the offset.
-/

/-- A parsed naive datetime: the wall-clock fields of `datetime.strptime`
after `.replace(tzinfo=None)`. -/
structure DateTime where
  year : Nat
  month : Nat
  day : Nat
  hour : Nat
  minute : Nat
  second : Nat
deriving DecidableEq

/-- The observable outcomes of `get_current_start_time`: `None` returned
(no active session), the explicit `Exception` of line 54 (the spec's
`ProtocolError`), the `ValueError` that `datetime.strptime` raises on a
malformed timestamp, or the parsed start time. -/
inductive StatusResult where
  | noActive : StatusResult
  | protocolError : StatusResult
  | valueError : StatusResult
  | started : DateTime → StatusResult
deriving DecidableEq

/-- Does `m` occur at the head of `s`? -/
def listStartsWith : List Char → List Char → Bool
  | [], _ => true
  | _ :: _, [] => false
  | a :: as, b :: bs => a == b && listStartsWith as bs

/-- Python's `m in s` substring test. -/
def listContainsSeq (m : List Char) : List Char → Bool
  | [] => m.isEmpty
  | c :: rest => listStartsWith m (c :: rest) || listContainsSeq m rest

/-- Does the character `q` occur in `s`? -/
def hasChar (q : Char) : List Char → Bool
  | [] => false
  | c :: rest => c == q || hasChar q rest

/-- Lowercase hex digit, as used by CPython's bytes repr `\xNN` escapes. -/
def hexDigitCh (n : Nat) : Char :=
  if n < 10 then Char.ofNat ('0'.toNat + n) else Char.ofNat ('a'.toNat + (n - 10))

/-- CPython `bytes.__repr__` quote choice: `'` unless the bytes contain `'`
and no `"`. -/
def bytesReprQuote (s : List Char) : Char :=
  if hasChar '\'' s && !(hasChar '"' s) then '"' else '\''

/-- CPython `bytes.__repr__` escaping of one byte, given the chosen quote:
the quote and backslash get a backslash, `\t` `\n` `\r` their mnemonic
escapes, other non-printable bytes `\xNN`, printable bytes stand for
themselves. -/
def escByte (q c : Char) : List Char :=
  if c = q ∨ c = '\\' then ['\\', c]
  else if c = '\t' then ['\\', 't']
  else if c = '\n' then ['\\', 'n']
  else if c = '\r' then ['\\', 'r']
  else if c.toNat < 0x20 ∨ 0x7f ≤ c.toNat then
    ['\\', 'x', hexDigitCh (c.toNat / 16 % 16), hexDigitCh (c.toNat % 16)]
  else [c]

/-- `str(b)` for a bytes value `b`: the repr `b'...'` (no `__str__` on
bytes, so `str` falls back to `__repr__`). -/
def pyBytesRepr (s : List Char) : List Char :=
  let q := bytesReprQuote s
  'b' :: q :: (List.flatten (s.map (escByte q)) ++ [q])

/-- `re.findall(r'\(.*?\)', s)` as a left-to-right scan.  `mode = none`:
searching for `'('`.  `mode = some acc`: inside a candidate match opened at
some `'('`, with the body chars seen so far in reverse in `acc`; the
non-greedy `.*?` ends the match at the first `')'`, and `.` does not match a
newline.  When a newline or the end of input is reached before a `')'`, no
match can start at the recorded `'('` or at any position before that
newline (there is no `')'` in between), so scanning resumes after it. -/
def scanP : Option (List Char) → List Char → List (List Char)
  | _, [] => []
  | none, c :: rest =>
    if c = '(' then scanP (some []) rest else scanP none rest
  | some acc, c :: rest =>
    if c = ')' then ('(' :: (acc.reverse ++ [')'])) :: scanP none rest
    else if c = '\n' then scanP none rest
    else scanP (some (c :: acc)) rest

/-- All matches of `re.findall(r'\(.*?\)', s)`. -/
def findallParens (s : List Char) : List (List Char) :=
  scanP none s

def digitCh (c : Char) : Bool := '0' ≤ c && c ≤ '9'

def dval (c : Char) : Nat := c.toNat - '0'.toNat

/-- Exactly four digits, as CPython's `_strptime` regex for `%Y`. -/
def parse4 : List Char → Option (Nat × List Char)
  | a :: b :: c :: d :: rest =>
    if digitCh a && digitCh b && digitCh c && digitCh d then
      some (1000 * dval a + 100 * dval b + 10 * dval c + dval d, rest)
    else none
  | _ => none

/-- A one-or-two digit numeric directive of `_strptime` (`%m`, `%d`, `%H`,
`%M`, `%S`), whose regex tries the two-digit alternatives first and falls
back to a single digit.  `ok2`/`ok1` are the value sets of the two-digit and
one-digit alternatives.  In the status format every numeric directive is
followed by a non-digit token, so when two digits are present the one-digit
fallback always fails at the following literal; committing to the two-digit
reading is therefore equivalent to the regex's backtracking. -/
def parse2or1 (ok2 ok1 : Nat → Bool) : List Char → Option (Nat × List Char)
  | a :: b :: rest =>
    if digitCh a && digitCh b then
      if ok2 (10 * dval a + dval b) then some (10 * dval a + dval b, rest) else none
    else if digitCh a && ok1 (dval a) then some (dval a, b :: rest)
    else none
  | [a] => if digitCh a && ok1 (dval a) then some (dval a, []) else none
  | [] => none

/-- Python `\s` whitespace (ASCII range; the status format's literal space
is compiled by `_strptime` to `\s+`). -/
def pyWs (c : Char) : Bool :=
  c = ' ' || c = '\t' || c = '\n' || c = '\x0b' || c = '\x0c' || c = '\r'

/-- One or more whitespace characters (`\s+`); maximal munch, which agrees
with the regex because the next token is a digit. -/
def skipWs1 : List Char → Option (List Char)
  | c :: rest => if pyWs c then some (rest.dropWhile pyWs) else none
  | [] => none

def expectCh (c : Char) : List Char → Option (List Char)
  | x :: rest => if x = c then some rest else none
  | [] => none

/-- Optional fractional offset seconds `(\.\d{1,6})?` of the `%z` regex,
followed (in the status format) by `')'`: more than six digits cannot be
completed by any backtracking, so it fails. -/
def parseTzSecFrac (s : List Char) : Option (List Char) :=
  match s with
  | '.' :: rest =>
    let ds := rest.takeWhile digitCh
    if 1 ≤ ds.length ∧ ds.length ≤ 6 then some (rest.drop ds.length) else none
  | _ => some s

/-- Optional offset seconds `(:?[0-5]\d(\.\d{1,6})?)?` of the `%z` regex.
A leading `':'` or a digit commits to the group: if the group then fails,
the following literal `')'` cannot match that character either. -/
def parseTzSecs (s : List Char) : Option (List Char) :=
  match s with
  | ':' :: s1 :: s2 :: rest =>
    if digitCh s1 && dval s1 ≤ 5 && digitCh s2 then parseTzSecFrac rest else none
  | ':' :: _ => none
  | s1 :: s2 :: rest =>
    if digitCh s1 && dval s1 ≤ 5 && digitCh s2 then parseTzSecFrac rest
    else some (s1 :: s2 :: rest)
  | other => some other

/-- Mandatory offset minutes `:?[0-5]\d` of the `%z` regex. -/
def parseTzMins (s : List Char) : Option (List Char) :=
  match s with
  | ':' :: m1 :: m2 :: rest =>
    if digitCh m1 && dval m1 ≤ 5 && digitCh m2 then parseTzSecs rest else none
  | m1 :: m2 :: rest =>
    if digitCh m1 && dval m1 ≤ 5 && digitCh m2 then parseTzSecs rest else none
  | _ => none

/-- The `%z` directive:
`[+-]\d\d:?[0-5]\d(:?[0-5]\d(\.\d{1,6})?)?|(?-i:Z)`.  After the regex
matches, `_strptime` builds a `timezone` whose offset must be strictly
within 24 hours, so two-digit offset hours `≥ 24` raise `ValueError`; since
minutes and seconds are at most 59 by shape, that is `hh ≤ 23`. -/
def parseTz (s : List Char) : Option (List Char) :=
  match s with
  | 'Z' :: rest => some rest
  | c :: h1 :: h2 :: rest =>
    if (c = '+' ∨ c = '-') ∧ digitCh h1 = true ∧ digitCh h2 = true
        ∧ 10 * dval h1 + dval h2 ≤ 23 then
      parseTzMins rest
    else none
  | _ => none

/-- Days per month as validated by the `datetime` constructor. -/
def daysInMonth (y m : Nat) : Nat :=
  if m = 2 then (if (y % 4 = 0 ∧ ¬ y % 100 = 0) ∨ y % 400 = 0 then 29 else 28)
  else if m = 4 ∨ m = 6 ∨ m = 9 ∨ m = 11 then 30
  else 31

/-- `datetime.strptime(s, "(%Y.%m.%d %H:%M:%S%z)").replace(tzinfo=None)`:
`none` when `strptime` (or the `datetime` constructor) raises `ValueError`,
otherwise the parsed wall-clock fields with the offset discarded.
Directive value sets: `%m` = 1..12 (no `00`), `%d` = 1..31 (no `00`),
`%H` = 0..23, `%M` = 0..59, `%S` = 0..61 by regex but at most 59 in the
`datetime` constructor; the year must be at least 1 and the day at most the
month length.  The regex must consume the whole string. -/
def strptimeStatus (s : List Char) : Option DateTime := do
  let s ← expectCh '(' s
  let (y, s) ← parse4 s
  let s ← expectCh '.' s
  let (mo, s) ← parse2or1 (fun v => decide (1 ≤ v ∧ v ≤ 12)) (fun v => decide (1 ≤ v)) s
  let s ← expectCh '.' s
  let (d, s) ← parse2or1 (fun v => decide (1 ≤ v ∧ v ≤ 31)) (fun v => decide (1 ≤ v)) s
  let s ← skipWs1 s
  let (h, s) ← parse2or1 (fun v => decide (v ≤ 23)) (fun _ => true) s
  let s ← expectCh ':' s
  let (mi, s) ← parse2or1 (fun v => decide (v ≤ 59)) (fun _ => true) s
  let s ← expectCh ':' s
  let (se, s) ← parse2or1 (fun v => decide (v ≤ 61)) (fun _ => true) s
  let s ← parseTz s
  let s ← expectCh ')' s
  if s = [] ∧ 1 ≤ y ∧ se ≤ 59 ∧ d ≤ daysInMonth y mo then
    some { year := y, month := mo, day := d, hour := h, minute := mi, second := se }
  else none

/-- The characters of the marker `"No project started"` tested on line 49. -/
def markerChars : List Char :=
  ['N', 'o', ' ', 'p', 'r', 'o', 'j', 'e', 'c', 't', ' ', 's', 't', 'a', 'r', 't', 'e', 'd']

/-- `get_current_start_time` (lines 47-55), as a function of the raw bytes
that `execute_command("watson status")` returned. -/
def get_current_start_time (out : List Char) : StatusResult :=
  let result := pyBytesRepr out
  if listContainsSeq markerChars result then StatusResult.noActive
  else
    match findallParens result with
    | [p] =>
      match strptimeStatus p with
      | some t => StatusResult.started t
      | none => StatusResult.valueError
    | _ => StatusResult.protocolError

/-- Follows the spec's words, amended by the counterexample: the marker
yields no-active regardless of content; otherwise the parser counts every
parenthesized substring of the output, raising the protocol error exactly
when that count differs from one; a single parenthesized substring is
returned as the parsed local wall-clock time when it is a well-formed
`(YYYY.MM.DD HH:MM:SS±ZZZZ)` timestamp (offset discarded) and otherwise
raises a parse error distinct from the protocol error. -/
def statusSpecAmended (out : List Char) : StatusResult :=
  if listContainsSeq markerChars out then StatusResult.noActive
  else
    match findallParens out with
    | [p] =>
      match strptimeStatus p with
      | some t => StatusResult.started t
      | none => StatusResult.valueError
    | _ => StatusResult.protocolError

/-- Follows the spec's words (§6, §4.3): the number of timestamp-shaped
parenthesized substrings of the status output. -/
def timestampShapedCount (out : List Char) : Nat :=
  List.countP (fun p => (strptimeStatus p).isSome) (findallParens out)

/-- A byte that the bytes repr maps to itself and that cannot merge with the
added `b'` prefix or `'` suffix: printable ASCII other than backslash and
single quote. -/
def plainByte (c : Char) : Bool :=
  decide (0x20 ≤ c.toNat) && decide (c.toNat ≤ 0x7e) && !(c == '\\') && !(c == '\'')

/-- Status outputs over which the `str(bytes)` repr-wrapping of line 48 is
transparent. -/
def plainBytes (out : List Char) : Bool :=
  out.all plainByte

/-! ## TimerDisplay (`TimerLabelUpdater._update_label`, src/watson_gui.py lines 82-85)

`dt = datetime.now().replace(microsecond=0) - self.start_time if self.start_time
else timedelta()` and `self.label.configure(text=str(dt))`.  Timestamps are
modelled as whole seconds (`now` is truncated to a whole second and
`start_time` comes from `strptime` without microseconds, so the difference
is a whole number of seconds and `str(dt)` never prints a `.ffffff` part).
A `datetime` object is always truthy, so the `if self.start_time` test is
exactly the `None` test.
-/

def pad2 (n : Nat) : String :=
  if n < 10 then "0" ++ toString n else toString n

/-- The `%s` plural suffix of `timedelta.__str__`: empty iff `abs(days) == 1`. -/
def pluralS (d : Int) : String :=
  if d = 1 ∨ d = -1 then "" else "s"

/-- Python `str(timedelta(seconds=ts))` for a whole-second delta:
`timedelta` normalizes to `days = ts // 86400` (floor) and
`seconds = ts % 86400` in `[0, 86399]`, and `__str__` prints
`"%d:%02d:%02d"` from `divmod`, prefixed by `"%d day%s, "` when the days
component is non-zero. -/
def pyTimedeltaStr (ts : Int) : String :=
  let d : Int := Int.fdiv ts 86400
  let r : Nat := (Int.emod ts 86400).toNat
  let core := toString (r / 60 / 60) ++ ":" ++ pad2 (r / 60 % 60) ++ ":" ++ pad2 (r % 60)
  if d = 0 then core else toString d ++ " day" ++ pluralS d ++ ", " ++ core

/-- The text rendered by `TimerLabelUpdater._update_label` (lines 82-84),
with `now` the current time truncated to whole seconds and the start time
both given in seconds. -/
def update_label (now : Int) (startTime : Option Int) : String :=
  match startTime with
  | some st => pyTimedeltaStr (now - st)
  | none => pyTimedeltaStr 0

/-- Follows the spec's words (§4.2): "a fixed-format duration string
(hours:minutes:seconds, unbounded hours)". -/
def specHmsUnbounded (e : Nat) : String :=
  toString (e / 3600) ++ ":" ++ pad2 (e / 60 % 60) ++ ":" ++ pad2 (e % 60)

/-- Follows the spec's words as amended by the counterexample: below one day
the `H:MM:SS` form with unpadded hours; from one day on, the whole days are
split off into a `"N day(s), "` prefix and the hours field stays below 24. -/
def specRenderAmended (e : Nat) : String :=
  if e < 86400 then specHmsUnbounded e
  else
    toString (e / 86400) ++ " day" ++ (if e / 86400 = 1 then "" else "s") ++ ", "
      ++ specHmsUnbounded (e % 86400)

/-! ## SessionController (src/watson_gui.py lines 127-187)

The window-level state: the editable project combobox text, its option
list, the tag list's slots and options, the read-only "Start at" combobox
(values `("Now", "Last stop time")`, initially index 0), the timer start
reference held by `TimerLabelUpdater`, and the enabled state of the Start
and Stop buttons.  User commands and the responses of the external `watson`
process are events; the handlers `on_start_commanded` and
`on_stop_commanded` are translated as the ordered list of effects they
perform, applied to the state in order.
-/

structure UIState where
  projectText : String
  projectOptions : List String
  tagSlots : List String
  tagOptions : List String
  startAtIndex : Nat
  timerStart : Option DateTime
  startEnabled : Bool
  stopEnabled : Bool
deriving DecidableEq

def startAtValues : List String := ["Now", "Last stop time"]

/-- One observable action of an event handler, in program order: running an
external command, showing a blocking `messagebox.showerror` alert, or
mutating one piece of window state. -/
inductive Effect where
  | runCmd : String → Effect
  | alert : String → Effect
  | setProjectOptions : List String → Effect
  | setTagOptions : List String → Effect
  | setTimerStart : Option DateTime → Effect
  | setStartEnabled : Bool → Effect
  | setStopEnabled : Bool → Effect
deriving DecidableEq

/-- `start_frame` (lines 16-19): the command line passed to
`subprocess.run`, namely
`f"watson start {project} {' '.join(tag_strs)} {no_gap_str}"` with
`tag_strs = [f"+{tag}" for tag in tags]` and `no_gap_str = "--no-gap" if
no_gap else ""`.  The `no_gap` argument receives
`start_at_combo.current()`, an `int`, whose Python truthiness is
"non-zero". -/
def start_frame (project : String) (tags : List String) (no_gap : Bool) : String :=
  let tag_strs := tags.map (fun tag => "+" ++ tag)
  let no_gap_str := if no_gap then "--no-gap" else ""
  "watson start " ++ project ++ " " ++ String.intercalate " " tag_strs ++ " " ++ no_gap_str

def emptyProjectMsg : String := "Project name cannot be empty"

def watsonStatusCmd : String := "watson status"

def watsonStopCmd : String := "watson stop"

def watsonProjectsCmd : String := "watson projects"

def watsonTagsCmd : String := "watson tags"

/-- `on_start_commanded` (lines 169-177) as its ordered effects, given the
parsed outcome of the `watson status` query it performs.  An empty project
text shows one blocking error dialog and returns.  Otherwise `start_frame`
runs `watson start ...` (with `start_at_combo.current() != 0` as the
truthiness of the flag), `get_current_start_time` runs `watson status`, and
if that call raises (protocol or parse error) the exception propagates and
no further statement of the handler executes. -/
def on_start_commanded (s : UIState) (statusResp : StatusResult) : List Effect :=
  if s.projectText = "" then [Effect.alert emptyProjectMsg]
  else
    [Effect.runCmd (start_frame s.projectText (get_values s.tagSlots) (s.startAtIndex != 0)),
     Effect.runCmd watsonStatusCmd]
    ++ match statusResp with
       | StatusResult.noActive =>
         [Effect.setTimerStart none, Effect.setStartEnabled false, Effect.setStopEnabled true]
       | StatusResult.started t =>
         [Effect.setTimerStart (some t), Effect.setStartEnabled false, Effect.setStopEnabled true]
       | _ => []

/-- `on_stop_commanded` (lines 180-186) as its ordered effects, given the
option lists returned by the two re-queries. -/
def on_stop_commanded (projResp tagResp : List String) : List Effect :=
  [Effect.runCmd watsonStopCmd,
   Effect.runCmd watsonProjectsCmd, Effect.setProjectOptions projResp,
   Effect.runCmd watsonTagsCmd, Effect.setTagOptions tagResp,
   Effect.setTimerStart none, Effect.setStartEnabled true, Effect.setStopEnabled false]

def applyEffect (s : UIState) : Effect → UIState
  | Effect.runCmd _ => s
  | Effect.alert _ => s
  | Effect.setProjectOptions o => { s with projectOptions := o }
  | Effect.setTagOptions o => { s with tagOptions := o }
  | Effect.setTimerStart t => { s with timerStart := t }
  | Effect.setStartEnabled b => { s with startEnabled := b }
  | Effect.setStopEnabled b => { s with stopEnabled := b }

def applyEffects (s : UIState) (es : List Effect) : UIState :=
  es.foldl applyEffect s

/-- The events the window reacts to: the user edits the project text,
selects a start-at mode, performs a value-change edit of tag slot `i` to
`v`, or clicks a button.  A click event carries the responses the external
tool gives to the queries the handler performs. -/
inductive GuiEvent where
  | editProject : String → GuiEvent
  | selectStartAt : Fin 2 → GuiEvent
  | tagEdit : Nat → String → GuiEvent
  | clickStart : StatusResult → GuiEvent
  | clickStop : List String → List String → GuiEvent
deriving DecidableEq

/-- One event step.  A disabled `ttk.Button` does not fire its command, so a
click of a disabled button leaves the state unchanged. -/
def guiStep (s : UIState) : GuiEvent → UIState
  | GuiEvent.editProject t => { s with projectText := t }
  | GuiEvent.selectStartAt i => { s with startAtIndex := i.val }
  | GuiEvent.tagEdit i v => { s with tagSlots := tagEditStep s.tagSlots i v }
  | GuiEvent.clickStart r =>
    if s.startEnabled then applyEffects s (on_start_commanded s r) else s
  | GuiEvent.clickStop pr tr =>
    if s.stopEnabled then applyEffects s (on_stop_commanded pr tr) else s

/-- The window state after the startup sequence (lines 127-167): project
options from `watson projects` with the text set to the first one when any
exists (`project_combo.current(None)` is a no-op getter), a fresh
`ComboboxList`, tag options from `watson tags`, start-at index 0, the timer
start from the startup status query, Start enabled iff that query returned
`None`, Stop enabled iff it did not.  (When the startup status query raises,
the program dies before the event loop, so no state is reachable.) -/
def initState (projects0 tags0 : List String) (status0 : Option DateTime) : UIState :=
  { projectText := projects0.headD ""
    projectOptions := projects0
    tagSlots := [""]
    tagOptions := tags0
    startAtIndex := 0
    timerStart := status0
    startEnabled := status0.isNone
    stopEnabled := !status0.isNone }

/-- No start click's status response reports an inactive session: the
external tool's output contract (§6) after a successful `watson start`. -/
def conformingEvents (evs : List GuiEvent) : Bool :=
  evs.all (fun e =>
    match e with
    | GuiEvent.clickStart StatusResult.noActive => false
    | _ => true)

/-- The C9 invariant: exactly one of the two buttons is enabled, and Start
is enabled exactly when the timer's start reference is absent. -/
def buttonTimerConsistent (s : UIState) : Prop :=
  s.startEnabled = !s.stopEnabled ∧ (s.startEnabled = true ↔ s.timerStart = none)

/-! Concrete status outputs used as counterexamples and witnesses. -/

/-- A marker-free status output with one timestamp-shaped parenthesized
substring but two parenthesized substrings in total. -/
def statusOutTwoParens : List Char := "(a) (2023.01.02 03:04:05+0000)".toList

/-- A marker-free status output with two parenthesized substrings, neither
timestamp-shaped. -/
def statusOutParenPair : List Char := "(a) (b)".toList

/-- A marker-free status output whose single parenthesized substring is not
a well-formed timestamp. -/
def statusOutBadTs : List Char := "(x)".toList

/-- A marker-free status output that is exactly one well-formed timestamp. -/
def statusOutGoodTs : List Char := "(2023.04.05 06:07:08+0900)".toList

/-! Concrete window states used as witnesses. -/

/-- An idle window with an empty project text. -/
def sampleIdleState : UIState :=
  { projectText := "", projectOptions := [], tagSlots := [""], tagOptions := []
    startAtIndex := 0, timerStart := none, startEnabled := true, stopEnabled := false }

/-- An idle window with a project selected and "Last stop time" chosen. -/
def sampleReadyState : UIState :=
  { projectText := "Alpha", projectOptions := ["Alpha"], tagSlots := ["x", ""]
    tagOptions := ["x"], startAtIndex := 1, timerStart := none
    startEnabled := true, stopEnabled := false }

/-- A window with a running session. -/
def sampleRunningState : UIState :=
  { projectText := "Alpha", projectOptions := ["Alpha"], tagSlots := [""], tagOptions := []
    startAtIndex := 0
    timerStart := some { year := 2023, month := 1, day := 1, hour := 0, minute := 0, second := 0 }
    startEnabled := false, stopEnabled := true }

/-! ## Theorems -/

/-! ### List helper lemmas -/

theorem setAppendLeft {α : Type} (l₁ l₂ : List α) (i : Nat) (a : α) (h : i < l₁.length) :
    (l₁ ++ l₂).set i a = l₁.set i a ++ l₂ := by
  induction l₁ generalizing i with
  | nil => simp at h
  | cons x xs ih =>
    cases i with
    | zero => rfl
    | succ n =>
      simp only [List.cons_append, List.set, List.append_eq]
      rw [ih n (Nat.lt_of_succ_lt_succ h)]

theorem eraseIdxAppendLeft {α : Type} (l₁ l₂ : List α) (i : Nat) (h : i < l₁.length) :
    (l₁ ++ l₂).eraseIdx i = l₁.eraseIdx i ++ l₂ := by
  induction l₁ generalizing i with
  | nil => simp at h
  | cons x xs ih =>
    cases i with
    | zero => rfl
    | succ n =>
      simp only [List.cons_append, List.eraseIdx, List.append_eq]
      rw [ih n (Nat.lt_of_succ_lt_succ h)]

theorem setEraseIdxSame {α : Type} (l : List α) (i : Nat) (a : α) :
    (l.set i a).eraseIdx i = l.eraseIdx i := by
  induction l generalizing i with
  | nil => rfl
  | cons x xs ih =>
    cases i with
    | zero => rfl
    | succ n =>
      simp only [List.set, List.eraseIdx]
      rw [ih n]

theorem setLastAppend {α : Type} (l : List α) (a b : α) :
    (l ++ [a]).set l.length b = l ++ [b] := by
  induction l with
  | nil => rfl
  | cons x xs ih =>
    simp only [List.cons_append, List.set, List.length_cons, List.append_eq]
    rw [ih]

theorem getDLastAppend {α : Type} (l : List α) (a d : α) :
    (l ++ [a]).getD l.length d = a := by
  induction l with
  | nil => rfl
  | cons x xs ih => simp only [List.cons_append, List.length_cons, List.getD_cons_succ]; exact ih

theorem getDAppendLeft {α : Type} (l₁ l₂ : List α) (i : Nat) (d : α) (h : i < l₁.length) :
    (l₁ ++ l₂).getD i d = l₁.getD i d := by
  induction l₁ generalizing i with
  | nil => simp at h
  | cons x xs ih =>
    cases i with
    | zero => rfl
    | succ n => simpa using ih n (Nat.lt_of_succ_lt_succ h)

theorem allSet {α : Type} (p : α → Bool) (l : List α) (h : l.all p = true) (i : Nat) (v : α)
    (hv : p v = true) : (l.set i v).all p = true := by
  induction l generalizing i with
  | nil => rfl
  | cons x xs ih =>
    simp only [List.all_cons, Bool.and_eq_true] at h
    cases i with
    | zero => simp [List.all_cons, hv, h.2]
    | succ n => simp [List.all_cons, h.1, ih h.2 n]

theorem allEraseIdx {α : Type} (p : α → Bool) (l : List α) (h : l.all p = true) (i : Nat) :
    (l.eraseIdx i).all p = true := by
  induction l generalizing i with
  | nil => rfl
  | cons x xs ih =>
    simp only [List.all_cons, Bool.and_eq_true] at h
    cases i with
    | zero => exact h.2
    | succ n => simp [List.eraseIdx, List.all_cons, h.1, ih h.2 n]

/-! ### DynamicValueList -/

/-- The full case analysis of `on_combobox_selected` on a reachable state
under a value-change event. -/
theorem on_combobox_selected_cases (slots : List String) (i : Nat) (v : String)
    (hInv : InvShape slots) (hi : i < slots.length) (hch : slots.getD i "" ≠ v) :
    (v = "" → 2 ≤ slots.length ∧ i < slots.length - 1 ∧
      on_combobox_selected slots i v = slots.eraseIdx i) ∧
    (v ≠ "" → i = slots.length - 1 → on_combobox_selected slots i v = slots.set i v ++ [""]) ∧
    (v ≠ "" → i < slots.length - 1 → on_combobox_selected slots i v = slots.set i v) := by
  obtain ⟨front, hs, hall⟩ := hInv
  subst hs
  have hlen : (front ++ [""]).length = front.length + 1 := by simp
  refine ⟨?_, ?_, ?_⟩
  · intro hv
    subst hv
    have hif : i < front.length := by
      rcases Nat.lt_succ_iff_lt_or_eq.mp (hlen ▸ hi) with h | h
      · exact h
      · exact absurd (h ▸ getDLastAppend front "" "") hch
    refine ⟨by omega, by omega, ?_⟩
    unfold on_combobox_selected
    rw [if_pos ⟨rfl, by simp; omega⟩, setEraseIdxSame]
  · intro hv hl
    unfold on_combobox_selected
    rw [if_neg (fun hc => hv hc.1), if_pos (by simp [hl, hlen])]
  · intro hv hlt
    unfold on_combobox_selected
    rw [if_neg (fun hc => hv hc.1), if_neg (by simp; omega)]

theorem invShape_tagEditStep (slots : List String) (i : Nat) (v : String)
    (h : InvShape slots) : InvShape (tagEditStep slots i v) := by
  unfold tagEditStep
  split
  case isTrue hg =>
    have hc := on_combobox_selected_cases slots i v h hg.1 hg.2
    obtain ⟨front, hs, hall⟩ := h
    by_cases hv : v = ""
    · obtain ⟨hlen2, hlt, heq⟩ := hc.1 hv
      rw [heq]
      subst hs
      have hif : i < front.length := by simp at hlt; omega
      exact ⟨front.eraseIdx i, eraseIdxAppendLeft front [""] i hif,
        allEraseIdx _ front hall i⟩
    · by_cases hl : i = slots.length - 1
      · rw [hc.2.1 hv hl]
        subst hs
        have hif : i = front.length := by simp at hl; omega
        refine ⟨front ++ [v], ?_, ?_⟩
        · rw [hif, setLastAppend]
        · simp only [List.all_append, Bool.and_eq_true, hall, true_and, List.all_cons,
            List.all_nil, Bool.and_true]
          simpa using hv
      · have hlt : i < slots.length - 1 := by
          have := hg.1
          omega
        rw [hc.2.2 hv hlt]
        subst hs
        have hif : i < front.length := by simp at hlt; omega
        exact ⟨front.set i v, setAppendLeft front [""] i v hif,
          allSet _ front hall i v (by simpa using hv)⟩
  case isFalse _ => exact h

theorem invShape_foldl (edits : List (Nat × String)) :
    ∀ slots, InvShape slots →
      InvShape (edits.foldl (fun sl e => tagEditStep sl e.1 e.2) slots) := by
  induction edits with
  | nil => intro s h; exact h
  | cons e rest ih => intro s h; exact ih _ (invShape_tagEditStep s e.1 e.2 h)

/-- C1: the claim says `getValues()` returns exactly the non-empty slot
values and never an empty string.  The code's filter `combobox.get() != None`
is vacuous for `str` values, so on the freshly constructed list (one empty
slot) `get_values` returns `[""]`, which contains the empty string; the
spec-side filter would return `[]`. -/
theorem c1_get_values_keeps_empty :
    get_values [""] = [""] ∧ specGetValues [""] = [] ∧
    get_values [""] ≠ specGetValues [""] := by
  refine ⟨rfl, rfl, ?_⟩
  decide

/-- C2: starting from the freshly constructed list (exactly one empty
slot), after any sequence of value-change events the list has at least one
slot, every slot except the last holds a non-empty value (so at most one
slot is empty and an empty slot can only be last), and the number of empty
slots is at most one. -/
theorem c2_dynamic_list_invariant (edits : List (Nat × String)) :
    1 ≤ (edits.foldl (fun sl e => tagEditStep sl e.1 e.2) [""]).length ∧
    ((edits.foldl (fun sl e => tagEditStep sl e.1 e.2) [""]).dropLast.all
      (fun v => !(v == ""))) = true ∧
    List.countP (fun v => v == "")
      (edits.foldl (fun sl e => tagEditStep sl e.1 e.2) [""]) ≤ 1 := by
  have h0 : InvShape [""] := ⟨[], rfl, rfl⟩
  obtain ⟨front, hf, hall⟩ := invShape_foldl edits [""] h0
  rw [hf]
  refine ⟨by simp, ?_, ?_⟩
  · rw [List.dropLast_concat]
    exact hall
  · rw [List.countP_append]
    have hz : List.countP (fun v => v == "") front = 0 := by
      rw [List.countP_eq_zero]
      intro a ha
      have := List.all_eq_true.mp hall a ha
      simpa using this
    simp [hz]

/-- C3: on a value-change event of slot `i` to value `v` in a reachable
state: a non-last slot emptied is removed exactly at its index with later
indices shifting down (and this requires at least two slots, so the single
remaining slot is never removed; it is also the only removal path); the
last slot becoming non-empty appends exactly one new empty slot; every
other value change leaves the structure unchanged. -/
theorem c3_transition_rule (slots : List String) (i : Nat) (v : String)
    (hInv : InvShape slots) (hi : i < slots.length) (hch : slots.getD i "" ≠ v) :
    (v = "" → 2 ≤ slots.length ∧ i < slots.length - 1 ∧
      on_combobox_selected slots i v = slots.eraseIdx i) ∧
    (v ≠ "" → i = slots.length - 1 → on_combobox_selected slots i v = slots.set i v ++ [""]) ∧
    (v ≠ "" → i < slots.length - 1 → on_combobox_selected slots i v = slots.set i v) :=
  on_combobox_selected_cases slots i v hInv hi hch

theorem c3_transition_rule_witness :
    (2 ≤ (["a", ""] : List String).length ∧ 0 < (["a", ""] : List String).length - 1 ∧
      on_combobox_selected ["a", ""] 0 "" = (["a", ""] : List String).eraseIdx 0) ∧
    on_combobox_selected ["a", ""] 1 "b" = (["a", ""] : List String).set 1 "b" ++ [""] := by
  have h1 := c3_transition_rule ["a", ""] 0 "" ⟨["a"], rfl, by decide⟩ (by decide) (by decide)
  have h2 := c3_transition_rule ["a", ""] 1 "b" ⟨["a"], rfl, by decide⟩ (by decide) (by decide)
  exact ⟨h1.1 rfl, h2.2.1 (by decide) (by decide)⟩

/-! ### Status parsing: transparency of the `str(bytes)` repr for plain outputs -/

theorem hasCharQuoteFalse (out : List Char) (h : plainBytes out = true) :
    hasChar '\'' out = false := by
  induction out with
  | nil => rfl
  | cons c rest ih =>
    simp only [plainBytes, List.all_cons, Bool.and_eq_true] at h
    have hc : (c == '\'') = false := by
      have h1 := h.1
      simp only [plainByte, Bool.and_eq_true, Bool.not_eq_true'] at h1
      exact h1.2
    simp only [hasChar, hc, Bool.false_or]
    exact ih h.2

theorem bytesReprQuotePlain (out : List Char) (h : plainBytes out = true) :
    bytesReprQuote out = '\'' := by
  unfold bytesReprQuote
  rw [hasCharQuoteFalse out h]
  rfl

theorem escBytePlain (c : Char) (h : plainByte c = true) : escByte '\'' c = [c] := by
  simp only [plainByte, Bool.and_eq_true, decide_eq_true_eq, Bool.not_eq_true'] at h
  obtain ⟨⟨⟨h1, h2⟩, h3⟩, h4⟩ := h
  have hq : ¬ (c = '\'' ∨ c = '\\') := by
    intro hc
    cases hc with
    | inl hc => rw [hc] at h4; simp at h4
    | inr hc => rw [hc] at h3; simp at h3
  have ht : ¬ c = '\t' := fun hc => by rw [hc] at h1; exact absurd h1 (by decide)
  have hn : ¬ c = '\n' := fun hc => by rw [hc] at h1; exact absurd h1 (by decide)
  have hr : ¬ c = '\r' := fun hc => by rw [hc] at h1; exact absurd h1 (by decide)
  have hrange : ¬ (c.toNat < 0x20 ∨ 0x7f ≤ c.toNat) := by omega
  unfold escByte
  rw [if_neg hq, if_neg ht, if_neg hn, if_neg hr, if_neg hrange]

theorem flattenEscPlain (out : List Char) (h : plainBytes out = true) :
    List.flatten (out.map (escByte '\'')) = out := by
  induction out with
  | nil => rfl
  | cons c rest ih =>
    simp only [plainBytes, List.all_cons, Bool.and_eq_true] at h
    simp only [List.map_cons, List.flatten_cons, escBytePlain c h.1, List.singleton_append]
    rw [ih h.2]

theorem pyBytesReprPlain (out : List Char) (h : plainBytes out = true) :
    pyBytesRepr out = 'b' :: '\'' :: (out ++ ['\'']) := by
  simp only [pyBytesRepr]
  rw [bytesReprQuotePlain out h, flattenEscPlain out h]

theorem listStartsWithAppendSingle (q : Char) :
    ∀ (m : List Char), m ≠ [] → (∀ c ∈ m, (c == q) = false) →
      ∀ xs, listStartsWith m (xs ++ [q]) = listStartsWith m xs := by
  intro m
  induction m with
  | nil => intro hm; exact absurd rfl hm
  | cons a m' ih =>
    intro _ hq xs
    have ha : (a == q) = false := hq a (by simp)
    cases xs with
    | nil => simp [listStartsWith, ha]
    | cons x xs' =>
      simp only [List.cons_append, List.append_eq, listStartsWith]
      cases m' with
      | nil => simp [listStartsWith]
      | cons b m'' =>
        rw [ih (by simp) (fun c hc => hq c (List.mem_cons_of_mem a hc)) xs']

theorem listContainsSeqAppendSingle (q : Char) (m : List Char) (hm : m ≠ [])
    (hq : ∀ c ∈ m, (c == q) = false) :
    ∀ xs, listContainsSeq m (xs ++ [q]) = listContainsSeq m xs := by
  intro xs
  induction xs with
  | nil =>
    have h1 : listStartsWith m [q] = false := by
      cases m with
      | nil => exact absurd rfl hm
      | cons a m' =>
        have ha := hq a (by simp)
        cases m' <;> simp [listStartsWith, ha]
    have h2 : m.isEmpty = false := by
      cases m with
      | nil => exact absurd rfl hm
      | cons a m' => rfl
    simp [listContainsSeq, h1, h2]
  | cons x xs' ih =>
    simp only [List.cons_append, List.append_eq, listContainsSeq]
    rw [ih]
    have hsw := listStartsWithAppendSingle q m hm hq (x :: xs')
    simp only [List.cons_append, List.append_eq] at hsw
    rw [hsw]

theorem markerSkipTwo (t : List Char) :
    listContainsSeq markerChars ('b' :: '\'' :: t) = listContainsSeq markerChars t := by
  have hb : ('N' == 'b') = false := by decide
  have hq : ('N' == '\'') = false := by decide
  simp [listContainsSeq, markerChars, listStartsWith, hb, hq]

theorem scanPAppendSingle (q : Char) (hq1 : ¬ q = '(') (hq2 : ¬ q = ')') (hq3 : ¬ q = '\n') :
    ∀ (s : List Char) (mode : Option (List Char)),
      scanP mode (s ++ [q]) = scanP mode s := by
  intro s
  induction s with
  | nil =>
    intro mode
    cases mode with
    | none => simp [scanP, hq1]
    | some acc => simp [scanP, hq2, hq3]
  | cons c rest ih =>
    intro mode
    cases mode with
    | none =>
      simp only [List.cons_append, scanP]
      by_cases hc : c = '(' <;> simp [hc, ih]
    | some acc =>
      simp only [List.cons_append, scanP]
      by_cases hc : c = ')'
      · simp [hc, ih]
      · by_cases hn : c = '\n' <;> simp [hc, hn, ih]

/-- For plain outputs the repr-wrapping of line 48 is invisible to the
marker test and to the findall scan, so `get_current_start_time` agrees
with the amended spec-side description on the raw output. -/
theorem statusOutputReprTransparent (out : List Char) (h : plainBytes out = true) :
    get_current_start_time out = statusSpecAmended out := by
  simp only [get_current_start_time, statusSpecAmended]
  rw [pyBytesReprPlain out h]
  rw [markerSkipTwo]
  rw [listContainsSeqAppendSingle '\'' markerChars (by decide) (by decide) out]
  have hb : ¬ ('b' = '(') := by decide
  have hq : ¬ ('\'' = '(') := by decide
  have hfp : findallParens ('b' :: '\'' :: (out ++ ['\''])) = findallParens out := by
    unfold findallParens
    have h1 : scanP none ('b' :: '\'' :: (out ++ ['\''])) = scanP none (out ++ ['\'']) := by
      simp [scanP, hb, hq]
    rw [h1, scanPAppendSingle '\'' (by decide) (by decide) (by decide) out none]
  rw [hfp]

/-- C4: the claim's "ProtocolError iff the number of timestamp occurrences
differs from one" fails: `statusOutTwoParens` is marker-free, contains
exactly one timestamp-shaped parenthesized substring, and still raises the
protocol error, because the code counts every parenthesized substring. -/
theorem c4_status_parsing_counterexample :
    listContainsSeq markerChars statusOutTwoParens = false ∧
    timestampShapedCount statusOutTwoParens = 1 ∧
    get_current_start_time statusOutTwoParens = StatusResult.protocolError := by
  refine ⟨by decide, by decide, by decide⟩

/-- C4 (amended): for printable-ASCII outputs without backslash or single
quote (over which the `str(bytes)` wrapping is transparent): the marker
yields no-active regardless of any other content; otherwise the protocol
error is raised exactly when the number of parenthesized substrings differs
from one, and a single parenthesized substring is returned as the parsed
local wall-clock time (offset discarded) when it is a well-formed timestamp
and raises the distinct parse error otherwise. -/
theorem c4_status_parsing_amended (out : List Char) (h : plainBytes out = true) :
    (listContainsSeq markerChars out = true →
      get_current_start_time out = StatusResult.noActive) ∧
    (listContainsSeq markerChars out = false →
      ((findallParens out).length ≠ 1 →
        get_current_start_time out = StatusResult.protocolError) ∧
      (∀ p, findallParens out = [p] →
        get_current_start_time out =
          (match strptimeStatus p with
           | some t => StatusResult.started t
           | none => StatusResult.valueError))) := by
  rw [statusOutputReprTransparent out h]
  unfold statusSpecAmended
  constructor
  · intro hm
    rw [if_pos hm]
  · intro hm
    rw [if_neg (by simp [hm])]
    constructor
    · intro hn
      cases hfp : findallParens out with
      | nil => rfl
      | cons p rest =>
        cases rest with
        | nil => rw [hfp] at hn; simp at hn
        | cons q rest' => rfl
    · intro p hp
      rw [hp]

theorem c4_status_parsing_amended_witness :
    plainBytes statusOutGoodTs = true ∧
    get_current_start_time statusOutGoodTs =
      StatusResult.started
        { year := 2023, month := 4, day := 5, hour := 6, minute := 7, second := 8 } := by
  refine ⟨by decide, ?_⟩
  have h := ((c4_status_parsing_amended statusOutGoodTs (by decide)).2 (by decide)).2
    statusOutGoodTs (by decide)
  exact h.trans (by decide)

/-- C10: the single-occurrence check counts every parenthesized substring:
for plain marker-free outputs, two or more parenthesized substrings raise
the protocol error even when none is a timestamp, and a single parenthesized
substring that is not a well-formed timestamp raises the parse error, which
is distinct from the protocol error. -/
theorem c10_paren_counting (out : List Char) (h : plainBytes out = true)
    (hm : listContainsSeq markerChars out = false) :
    (2 ≤ (findallParens out).length →
      get_current_start_time out = StatusResult.protocolError) ∧
    (∀ p, findallParens out = [p] → strptimeStatus p = none →
      get_current_start_time out = StatusResult.valueError) := by
  rw [statusOutputReprTransparent out h]
  unfold statusSpecAmended
  rw [if_neg (by simp [hm])]
  constructor
  · intro h2
    cases hfp : findallParens out with
    | nil => rfl
    | cons p rest =>
      cases rest with
      | nil => rw [hfp] at h2; simp at h2
      | cons q rest' => rfl
  · intro p hp hn
    rw [hp]
    simp [hn]

theorem c10_paren_counting_witness :
    get_current_start_time statusOutParenPair = StatusResult.protocolError ∧
    get_current_start_time statusOutBadTs = StatusResult.valueError := by
  constructor
  · exact (c10_paren_counting statusOutParenPair (by decide) (by decide)).1 (by decide)
  · exact (c10_paren_counting statusOutBadTs (by decide) (by decide)).2
      statusOutBadTs (by decide) (by decide)

/-! ### TimerDisplay -/

theorem intToStringOfNat (n : Nat) : toString ((n : Nat) : Int) = toString n := rfl

theorem pyTimedeltaStrOfNat (e : Nat) :
    pyTimedeltaStr ((e : Nat) : Int) = specRenderAmended e := by
  have hd : Int.fdiv ((e : Nat) : Int) 86400 = ((e / 86400 : Nat) : Int) := by
    exact_mod_cast (Int.ofNat_fdiv e 86400).symm
  have hr : (Int.emod ((e : Nat) : Int) 86400).toNat = e % 86400 := by
    have h1 : Int.emod ((e : Nat) : Int) 86400 = ((e % 86400 : Nat) : Int) := by
      exact (Int.ofNat_emod e 86400).symm
    rw [h1, Int.toNat_ofNat]
  simp only [pyTimedeltaStr, specRenderAmended, specHmsUnbounded, hd, hr]
  by_cases h : e < 86400
  · have hz : e / 86400 = 0 := Nat.div_eq_of_lt h
    have hm : e % 86400 = e := Nat.mod_eq_of_lt h
    rw [hz, hm, if_pos h]
    simp [Nat.div_div_eq_div_mul]
  · have hnz : ¬ e / 86400 = 0 := by omega
    rw [if_neg h, if_neg (by exact_mod_cast hnz), intToStringOfNat]
    have hcore : e % 86400 / 60 / 60 = e % 86400 / 3600 := by
      rw [Nat.div_div_eq_div_mul]
    rw [hcore]
    by_cases h1 : e / 86400 = 1
    · rw [h1]
      simp [pluralS]
    · have hp : pluralS ((e / 86400 : Nat) : Int) = "s" := by
        unfold pluralS
        rw [if_neg]
        intro hc
        cases hc with
        | inl hc => exact h1 (by exact_mod_cast hc)
        | inr hc => omega
      rw [hp, if_neg h1]

/-- C6: the claim's two concrete renderings hold, but the label is Python's
`str(timedelta)`, which is not the unbounded-hours form: at one day plus
125 seconds it shows a day-split prefix instead of 24 hours. -/
theorem c6_timer_counterexample :
    update_label 86525 (some 0) = "1 day, 0:02:05" ∧
    specHmsUnbounded 86525 = "24:02:05" ∧
    update_label 86525 (some 0) ≠ specHmsUnbounded 86525 := by
  refine ⟨by decide, by decide, by decide⟩

/-- C6 (amended): the tick renders zero as `0:00:00` when the start
reference is absent, renders `0:02:05` when now minus start is 125 seconds,
and in general renders a nonnegative elapsed time in `H:MM:SS` form with
the hours below 24 and any whole days split into a `"N day(s), "` prefix. -/
theorem c6_timer_render (now st : Int) :
    update_label now none = "0:00:00" ∧
    (now - st = 125 → update_label now (some st) = "0:02:05") ∧
    (0 ≤ now - st → update_label now (some st) = specRenderAmended (now - st).toNat) := by
  refine ⟨?_, ?_, ?_⟩
  · show pyTimedeltaStr 0 = "0:00:00"
    decide
  · intro h
    show pyTimedeltaStr (now - st) = _
    rw [h]
    decide
  · intro h
    have hk := Int.toNat_of_nonneg h
    have hu : update_label now (some st) = pyTimedeltaStr (((now - st).toNat : Nat) : Int) := by
      show pyTimedeltaStr (now - st) = _
      rw [hk]
    rw [hu, pyTimedeltaStrOfNat]

theorem c6_timer_render_witness :
    update_label 125 (some 0) = "0:02:05" ∧
    update_label 125 (some 0) = specRenderAmended ((125 - 0 : Int)).toNat := by
  exact ⟨(c6_timer_render 125 0).2.1 (by decide), (c6_timer_render 125 0).2.2 (by decide)⟩

/-! ### SessionController -/

/-- C5: clicking Start while the project label is empty shows exactly one
blocking error alert (the spec's `ValidationError`), issues no external
command, and leaves the whole window state — session, buttons, timer start —
unchanged. -/
theorem c5_empty_project_validation (s : UIState) (r : StatusResult)
    (h : s.projectText = "") :
    on_start_commanded s r = [Effect.alert emptyProjectMsg] ∧
    guiStep s (GuiEvent.clickStart r) = s := by
  have he : on_start_commanded s r = [Effect.alert emptyProjectMsg] := by
    unfold on_start_commanded
    rw [if_pos h]
  refine ⟨he, ?_⟩
  simp only [guiStep]
  by_cases hs : s.startEnabled = true
  · rw [if_pos hs, he]
    rfl
  · rw [if_neg hs]

theorem c5_empty_project_validation_witness :
    on_start_commanded sampleIdleState StatusResult.noActive = [Effect.alert emptyProjectMsg] ∧
    guiStep sampleIdleState (GuiEvent.clickStart StatusResult.noActive) = sampleIdleState :=
  c5_empty_project_validation sampleIdleState StatusResult.noActive (by decide)

/-- C7: with a non-empty project, the first command issued is `start_frame`
with the flag `start_at_combo.current() != 0` (an `int` used for its
truthiness), which is true exactly when the selected choice is
"Last stop time" and false when it is "Now"; and `start_frame` with the
flag true is the gap-allowed command with `--no-gap` appended. -/
theorem c7_no_gap_flag (s : UIState) (r : StatusResult)
    (hp : ¬ s.projectText = "") (hidx : s.startAtIndex < 2) :
    (on_start_commanded s r).head? =
      some (Effect.runCmd
        (start_frame s.projectText (get_values s.tagSlots) (s.startAtIndex != 0))) ∧
    ((s.startAtIndex != 0) = true ↔
      startAtValues.getD s.startAtIndex "" = "Last stop time") ∧
    (startAtValues.getD s.startAtIndex "" = "Now" → (s.startAtIndex != 0) = false) ∧
    (∀ p tags, start_frame p tags true = start_frame p tags false ++ "--no-gap") := by
  refine ⟨?_, ?_, ?_, ?_⟩
  · unfold on_start_commanded
    rw [if_neg hp]
    cases r <;> rfl
  · cases hsi : s.startAtIndex with
    | zero => decide
    | succ n =>
      cases n with
      | zero => decide
      | succ m => rw [hsi] at hidx; omega
  · cases hsi : s.startAtIndex with
    | zero => intro _; decide
    | succ n =>
      cases n with
      | zero => intro hw; exact absurd hw (by decide)
      | succ m => rw [hsi] at hidx; omega
  · intro p tags
    simp [start_frame]

theorem c7_no_gap_flag_witness :
    (on_start_commanded sampleReadyState StatusResult.valueError).head? =
      some (Effect.runCmd
        (start_frame sampleReadyState.projectText (get_values sampleReadyState.tagSlots)
          (sampleReadyState.startAtIndex != 0))) ∧
    ((sampleReadyState.startAtIndex != 0) = true ↔
      startAtValues.getD sampleReadyState.startAtIndex "" = "Last stop time") := by
  have h := c7_no_gap_flag sampleReadyState StatusResult.valueError (by decide) (by decide)
  exact ⟨h.1, h.2.1⟩

/-- C8: clicking Stop first issues the stop command, then re-queries and
replaces the project options, then re-queries and replaces the tag
options, then clears the timer start reference, then sets Start enabled
and Stop disabled — in that order. -/
theorem c8_stop_sequence (s : UIState) (pr tr : List String) (hs : s.stopEnabled = true) :
    on_stop_commanded pr tr =
      [Effect.runCmd watsonStopCmd,
       Effect.runCmd watsonProjectsCmd, Effect.setProjectOptions pr,
       Effect.runCmd watsonTagsCmd, Effect.setTagOptions tr,
       Effect.setTimerStart none, Effect.setStartEnabled true, Effect.setStopEnabled false] ∧
    guiStep s (GuiEvent.clickStop pr tr) =
      { s with projectOptions := pr, tagOptions := tr, timerStart := none,
               startEnabled := true, stopEnabled := false } := by
  refine ⟨rfl, ?_⟩
  simp only [guiStep]
  rw [if_pos hs]
  rfl

theorem c8_stop_sequence_witness :
    guiStep sampleRunningState (GuiEvent.clickStop ["p1"] ["t1"]) =
      { sampleRunningState with
          projectOptions := ["p1"]
          tagOptions := ["t1"]
          timerStart := none
          startEnabled := true
          stopEnabled := false } :=
  (c8_stop_sequence sampleRunningState ["p1"] ["t1"] rfl).2

theorem buttonTimerConsistent_step (s : UIState) (e : GuiEvent)
    (h : buttonTimerConsistent s)
    (hc : (match e with
           | GuiEvent.clickStart StatusResult.noActive => false
           | _ => true) = true) :
    buttonTimerConsistent (guiStep s e) := by
  obtain ⟨h1, h2⟩ := h
  cases e with
  | editProject t => exact ⟨h1, h2⟩
  | selectStartAt i => exact ⟨h1, h2⟩
  | tagEdit i v => exact ⟨h1, h2⟩
  | clickStart r =>
    simp only [guiStep]
    by_cases hs : s.startEnabled = true
    · rw [if_pos hs]
      unfold on_start_commanded
      by_cases hp : s.projectText = ""
      · rw [if_pos hp]
        exact ⟨h1, h2⟩
      · rw [if_neg hp]
        cases r with
        | noActive => simp at hc
        | protocolError => exact ⟨h1, h2⟩
        | valueError => exact ⟨h1, h2⟩
        | started t => exact ⟨rfl, by simp [applyEffects, applyEffect]⟩
    · rw [if_neg hs]
      exact ⟨h1, h2⟩
  | clickStop pr tr =>
    simp only [guiStep]
    by_cases hs : s.stopEnabled = true
    · rw [if_pos hs]
      exact ⟨rfl, by simp [applyEffects, applyEffect, on_stop_commanded]⟩
    · rw [if_neg hs]
      exact ⟨h1, h2⟩

theorem buttonTimerConsistent_run (evs : List GuiEvent) :
    ∀ s, buttonTimerConsistent s → conformingEvents evs = true →
      buttonTimerConsistent (evs.foldl guiStep s) := by
  induction evs with
  | nil => intro s h _; exact h
  | cons e rest ih =>
    intro s h hc
    simp only [conformingEvents, List.all_cons, Bool.and_eq_true] at hc
    exact ih _ (buttonTimerConsistent_step s e h hc.1) hc.2

/-- C9: in every state reachable from startup via events whose start clicks
conform to the external contract (the status re-query after a start reports
a running session; clicks of disabled buttons do not fire), exactly one of
the Start and Stop buttons is enabled, and Start is enabled exactly when
the session's start reference (the timer's start) is absent. -/
theorem c9_button_invariant (projects0 tags0 : List String) (status0 : Option DateTime)
    (evs : List GuiEvent) (hc : conformingEvents evs = true) :
    buttonTimerConsistent (evs.foldl guiStep (initState projects0 tags0 status0)) := by
  apply buttonTimerConsistent_run evs _ _ hc
  unfold initState buttonTimerConsistent
  cases status0 with
  | none => exact ⟨rfl, by simp⟩
  | some t => exact ⟨rfl, by simp⟩

theorem c9_button_invariant_witness :
    buttonTimerConsistent
      ([GuiEvent.clickStart (StatusResult.started
          { year := 2023, month := 1, day := 1, hour := 0, minute := 0, second := 0 }),
        GuiEvent.clickStop ["p"] ["t"]].foldl guiStep (initState ["Alpha"] [] none)) :=
  c9_button_invariant ["Alpha"] [] none
    [GuiEvent.clickStart (StatusResult.started
        { year := 2023, month := 1, day := 1, hour := 0, minute := 0, second := 0 }),
      GuiEvent.clickStop ["p"] ["t"]] (by decide)
